import Mathlib

/-!
Verification of the news-search engine (news-search-app).

Shallow embedding of the core retrieval engine: date-range resolution
(`resolve_dates` / `validate_yyyymmdd`), the HTML result extractor
(`parse_search_results` with its two strategies), the link normalizer
(`_clean_google_link`), the paginated Naver fetch loop (`search_naver_news`)
and the Google feed-with-fallback orchestrator (`search_google_news`).

Network fetches, the RFC-2822 date parser and the HTML-fallback scraper are
abstracted as explicit oracle parameters; everything else is translated
directly from the Python source.
-/

namespace NewsSearch

/-- Error taxonomy of `resolve_dates`: `invalidFormat` is the ValueError
raised by `validate_yyyymmdd` (regex or `strptime` failure), `invalidRange`
the ValueError raised when `start > end`. -/
inductive DateErr where
  | invalidFormat
  | invalidRange
deriving DecidableEq, Repr

/-- Python truthiness of an optional string argument: `None` and `""` are
falsy, every other string is truthy. -/
def pyTruthy : Option String → Bool
  | none => false
  | some s => s ≠ ""

/-- Numeric value of a digit-character sequence (used on substrings of an
8-digit date). -/
def digitsVal (cs : List Char) : Nat :=
  cs.foldl (fun n c => n * 10 + (c.toNat - 48)) 0

/-- `re.fullmatch(r"\d\x7b8\x7d", s)`: exactly eight digit characters. -/
def fullmatch8 (s : String) : Bool :=
  s.length == 8 && s.toList.all Char.isDigit

/-- Gregorian leap-year rule, as used by `datetime`. -/
def isLeap (y : Nat) : Bool :=
  (y % 4 == 0 && y % 100 != 0) || y % 400 == 0

/-- Days in a month, as enforced by `datetime.strptime(s, "%Y%m%d")`. -/
def daysInMonth (y m : Nat) : Nat :=
  if m == 2 then (if isLeap y then 29 else 28)
  else if m == 4 || m == 6 || m == 9 || m == 11 then 30
  else 31

/-- `datetime.strptime(s, "%Y%m%d")` succeeds on an 8-digit string iff the
year is at least 1 (datetime.MINYEAR) and month/day form a real calendar
date. -/
def strptimeYmdOk (s : String) : Bool :=
  let cs := s.toList
  let y := digitsVal (cs.take 4)
  let m := digitsVal ((cs.drop 4).take 2)
  let d := digitsVal (cs.drop 6)
  1 ≤ y && 1 ≤ m && m ≤ 12 && 1 ≤ d && d ≤ daysInMonth y m

/-- A string accepted by `validate_yyyymmdd`: eight digits forming a real
calendar date. -/
def validDate8 (s : String) : Bool :=
  fullmatch8 s && strptimeYmdOk s

/-- `validate_yyyymmdd(s)`. `s or ""` turns `None` into `""` before the
regex; both the regex failure and the `strptime` failure raise ValueError
(`invalidFormat`). -/
def validate_yyyymmdd (s : Option String) : Except DateErr Unit :=
  if validDate8 (s.getD "") then .ok () else .error .invalidFormat

/-- The Python `<` on strings: code-point lexicographic comparison of the
character sequences. -/
def pyStrLtChars : List Char → List Char → Bool
  | [], [] => false
  | [], _ :: _ => true
  | _ :: _, [] => false
  | a :: as, b :: bs =>
    if a.toNat < b.toNat then true
    else if b.toNat < a.toNat then false
    else pyStrLtChars as bs

/-- The Python `a < b` comparison on strings. -/
def pyStrLt (a b : String) : Bool := pyStrLtChars a.toList b.toList

/-- `resolve_dates(start, end)`. `today` stands for
`datetime.today().strftime("%Y%m%d")`. The three branches follow the
source: start truthy and end falsy; both falsy; otherwise validate both
(start first). The final `start > end` comparison is the Python
lexicographic string comparison, embedded as `endS < startS`. -/
def resolve_dates (startO endO : Option String) (today : String) :
    Except DateErr (String × String) :=
  if pyTruthy startO && !pyTruthy endO then
    match validate_yyyymmdd startO with
    | .error e => .error e
    | .ok () =>
      let s := startO.getD ""
      if pyStrLt today s then .error .invalidRange else .ok (s, today)
  else if !pyTruthy startO && !pyTruthy endO then
    if pyStrLt today today then .error .invalidRange else .ok (today, today)
  else
    match validate_yyyymmdd startO with
    | .error e => .error e
    | .ok () =>
      match validate_yyyymmdd endO with
      | .error e => .error e
      | .ok () =>
        let s := startO.getD ""
        let e := endO.getD ""
        if pyStrLt e s then .error .invalidRange else .ok (s, e)

/-- A (title, link) article record, as produced by the extractors. -/
structure Record where
  title : String
  link : String
deriving DecidableEq, Repr

/-- Outcome of fetching and extracting one Naver search page: either the
request raised `requests.RequestException` (from `safe_get` /
`raise_for_status`) or it yielded the records `parse_search_results`
extracted from the response body. -/
inductive PageResult where
  | netErr
  | items (l : List Record)

/-- Inner `for it in items` loop of `search_naver_news`: append each record
and stop as soon as the collected count reaches `maxItems` (the Python
`collected` counter always equals `len(results)`, so the count is taken
from the accumulator). Returns the new accumulator and whether the
`collected >= max_items` early return fired. -/
def naverCollect (maxItems : Nat) : List Record → List Record → List Record × Bool
  | acc, [] => (acc, false)
  | acc, it :: rest =>
    let acc' := acc ++ [it]
    if maxItems ≤ acc'.length then (acc', true)
    else naverCollect maxItems acc' rest

/-- Page loop of `search_naver_news`, fuelled by the number of remaining
pages. `fetch page` abstracts `safe_get` on the page-`page` search URL
followed by `parse_search_results` on its body. A network error breaks the
loop; an empty page breaks the loop; reaching `maxItems` returns
immediately. The politeness `time.sleep` has no effect on the result. -/
def naverLoop (fetch : Nat → PageResult) (maxItems : Nat) :
    Nat → Nat → List Record → List Record
  | _, 0, acc => acc
  | page, n + 1, acc =>
    match fetch page with
    | .netErr => acc
    | .items [] => acc
    | .items l =>
      match naverCollect maxItems acc l with
      | (acc', true) => acc'
      | (acc', false) => naverLoop fetch maxItems (page + 1) n acc'

/-- `search_naver_news(keyword, start_date, end_date, max_items)`:
`pages = (max_items + 9) // 10`, then the page loop starting from page 0
with an empty accumulator. Keyword and date range only shape the URL that
`fetch` abstracts. -/
def search_naver_news (fetch : Nat → PageResult) (maxItems : Nat) : List Record :=
  naverLoop fetch maxItems 0 ((maxItems + 9) / 10) []

/-- Python `str.strip()`: drop leading and trailing whitespace (embedded
over the character list, since `String.trim` does not reduce in the
kernel). -/
def pyStrip (s : String) : String :=
  String.mk (((s.toList.dropWhile Char.isWhitespace).reverse.dropWhile
    Char.isWhitespace).reverse)

/-- Python `s.split(sep)` for a one-character separator, over character
lists; empty pieces are kept and the empty input yields one empty piece
(embedded list-based because `String.splitOn` does not reduce in the
kernel). -/
def splitChar (sep : Char) : List Char → List (List Char)
  | [] => [[]]
  | c :: cs =>
    let r := splitChar sep cs
    if c = sep then [] :: r
    else
      match r with
      | [] => [[c]]
      | g :: gs => (c :: g) :: gs

/-- Concatenate pieces with the separator back between them (inverse of
`splitChar` on the tail pieces of a split). -/
def joinChar (sep : Char) : List (List Char) → List Char
  | [] => []
  | [g] => g
  | g :: gs => g ++ sep :: joinChar sep gs

/-- Python `s.startswith(pre)`. -/
def pyStartsWith (s pre : String) : Bool :=
  pre.toList.isPrefixOf s.toList

/-- Scheme detection of `urllib.parse.urlsplit`: the string has a scheme
when a `:` occurs and everything before the first `:` is a nonempty run of
ASCII letters, digits, `+`, `-`, `.` starting with a letter. -/
def hasScheme (s : String) : Bool :=
  match splitChar ':' s.toList with
  | head :: _ :: _ =>
    match head with
    | [] => false
    | c :: cs => c.isAlpha && cs.all (fun ch => ch.isAlphanum || ch == '+' || ch == '-' || ch == '.')
  | _ => false

/-- Models `urllib.parse.urljoin(base, ref)` for the two bases the source
uses (`https://www.google.com`, `https://news.google.com`), which are
origin-only URLs with an empty path. A ref with its own scheme is returned
as is; a network-path ref (`//…`) keeps the scheme of the base (`https`); an
absolute-path ref is appended to the origin; any other nonempty ref is
resolved against the empty base path, i.e. `/` + ref. Dot-segment
normalization is not modelled (no claim exercises it). -/
def urljoinOrigin (base ref : String) : String :=
  if hasScheme ref then ref
  else if pyStartsWith ref "//" then "https:" ++ ref
  else if pyStartsWith ref "/" then base ++ ref
  else base ++ "/" ++ ref

/-- `urlparse(link).query`: the part of the string after the first `?`,
with the fragment (everything from the first `#`) removed first. -/
def urlQueryChars (s : String) : List Char :=
  let beforeFrag := (splitChar '#' s.toList).headD s.toList
  match splitChar '?' beforeFrag with
  | _ :: q :: rest => joinChar '?' (q :: rest)
  | _ => []

/-- `parse_qs(query).get(key)` followed by taking the first value:
pairs are split on `&`, then on the first `=`; with the default
`keep_blank_values=False`, pairs with an empty value are dropped, so a
returned value is never empty. Percent-decoding of `%xx` escapes and `+`
is not modelled (no claim feeds encoded input; decoding never turns a
nonempty value into an empty one). -/
def parseQsGet (query : List Char) (key : String) : Option String :=
  ((splitChar '&' query).filterMap (fun kv =>
    match splitChar '=' kv with
    | k :: v :: rest =>
      let value := joinChar '=' (v :: rest)
      if k = key.toList ∧ value ≠ [] then some (String.mk value) else none
    | _ => none)).head?

/-- `_clean_google_link(link)`. The Python function returns its falsy
argument unchanged when `not link`; the empty string plays the role of
that null/filtered result here. For Google redirect-wrapper links it
extracts `q` (or `url`) from the query, falling back to a join against
`https://www.google.com`; absolute `http…` links pass through; everything
else is joined against `https://news.google.com`. -/
def clean_google_link (link : String) : String :=
  if link = "" then link
  else if pyStartsWith link "/url?" || pyStartsWith link "https://www.google.com/url?" then
    match parseQsGet (urlQueryChars link) "q" with
    | some v => v
    | none =>
      match parseQsGet (urlQueryChars link) "url" with
      | some v => v
      | none => urljoinOrigin "https://www.google.com" link
  else if pyStartsWith link "http" then link
  else urljoinOrigin "https://news.google.com" link

/-- One `<item>` of the Google News RSS feed, as read by
`item.findtext("title" | "link" | "pubDate")`: each field is `none` when
the element is missing. -/
structure FeedEntry where
  title : Option String
  link : Option String
  pubDate : Option String
deriving DecidableEq

/-- Outcome of the feed fetch+parse in `search_google_news`: the request
raised `requests.RequestException` (`netErr`), `ET.fromstring` raised
`ParseError` (`parseErr`), or parsing yielded the listed `<item>`
entries. -/
inductive FeedFetch where
  | netErr
  | parseErr
  | parsed (items : List FeedEntry)

/-- `_parse_pub_date(pub_text)`, with the RFC-2822 parser
`email.utils.parsedate_to_datetime` (plus the timezone fix-up and `.date()`
projection) abstracted as `parse`: `None` or `""` input yields no date;
otherwise the abstracted parser decides. Dates are modelled as day
ordinals (`Nat`), matching the total order on `datetime.date`. -/
def parsePubOpt (parse : String → Option Nat) : Option String → Option Nat
  | none => none
  | some t => if t = "" then none else parse t

/-- The date filter of the feed loop: an entry is dropped exactly when its
publication date parsed and lies strictly outside `[startD, endD]`
(`pub_date and (pub_date < start_dt or pub_date > end_dt)`). -/
def entryKeptByDate (parse : String → Option Nat) (pubText : Option String)
    (startD endD : Nat) : Bool :=
  match parsePubOpt parse pubText with
  | some d => !(d < startD || endD < d)
  | none => true

/-- The link a feed entry contributes to `seen_links` and to the output:
`_clean_google_link(link) or link` applied to the stripped link text. -/
def cleanedLinkOf (entry : FeedEntry) : String :=
  let link := pyStrip (entry.link.getD "")
  let c := clean_google_link link
  if c = "" then link else c

/-- The `for item in root.findall(".//item")` loop of `search_google_news`:
skip entries with blank title or link, apply the date filter, clean the
link, deduplicate against `seen_links`, and stop (`break`) once
`len(results) >= max_items` right after an append. -/
def feedLoop (parse : String → Option Nat) (startD endD maxItems : Nat) :
    List FeedEntry → List String → List Record → List Record
  | [], _, results => results
  | entry :: rest, seen, results =>
    let title := pyStrip (entry.title.getD "")
    let link := pyStrip (entry.link.getD "")
    if title = "" || link = "" then
      feedLoop parse startD endD maxItems rest seen results
    else if !entryKeptByDate parse entry.pubDate startD endD then
      feedLoop parse startD endD maxItems rest seen results
    else
      let cleaned := cleanedLinkOf entry
      if seen.contains cleaned then
        feedLoop parse startD endD maxItems rest seen results
      else
        let results' := results ++ [⟨title, cleaned⟩]
        if maxItems ≤ results'.length then results'
        else feedLoop parse startD endD maxItems rest (cleaned :: seen) results'

/-- `search_google_news(keyword, start_date, end_date, max_items)` after the
date strings have been `strptime`-parsed successfully (the early-return on
a ValueError is outside every claim). `feed` is the outcome of fetching
and parsing the RSS URL; `htmlFallback` is the value
`_search_google_news_html(keyword, start_dt, end_dt, max_items)` returns
for these arguments (a network-dependent oracle). On a fetch or parse
failure the fallback result is returned; otherwise the feed loop runs and
its result is returned when non-empty, else the fallback result. -/
def search_google_news (parse : String → Option Nat) (feed : FeedFetch)
    (htmlFallback : List Record) (startD endD maxItems : Nat) : List Record :=
  match feed with
  | .netErr => htmlFallback
  | .parseErr => htmlFallback
  | .parsed items =>
    let results := feedLoop parse startD endD maxItems items [] []
    if results = [] then htmlFallback else results

/-- A parsed HTML node, as produced by `BeautifulSoup(html, "html.parser")`:
an element with tag name, attributes and children, or a text node. -/
inductive HNode where
  | elem (tag : String) (attrs : List (String × String)) (children : List HNode)
  | text (s : String)

/-- `tag.get(name)`: first attribute with the given name, if any. -/
def getAttr (attrs : List (String × String)) (name : String) : Option String :=
  (attrs.find? (fun p => p.1 == name)).map (fun p => p.2)

/-- CSS class test of a `tag.class_` selector: the `class` attribute,
split on spaces, contains the class name. -/
def hasClass (attrs : List (String × String)) (c : String) : Bool :=
  match getAttr attrs "class" with
  | none => false
  | some s => (splitChar ' ' s.toList).contains c.toList

mutual
/-- All text-node strings below a node, in document order. -/
def nodeTexts : HNode → List String
  | .text s => [s]
  | .elem _ _ cs => nodesTexts cs
def nodesTexts : List HNode → List String
  | [] => []
  | n :: ns => nodeTexts n ++ nodesTexts ns
end

/-- `tag.get_text(strip=True)`: each descendant text fragment stripped,
then concatenated. -/
def getTextStrip (n : HNode) : String :=
  String.mk (((nodeTexts n).map (fun s => (pyStrip s).toList)).flatten)

/-- Matches the selector `a.news_tit` of extraction strategy 1. -/
def isNewsTitAnchor : HNode → Bool
  | .elem tag attrs _ => tag == "a" && hasClass attrs "news_tit"
  | .text _ => false

/-- Matches the selector `span.sds-comps-text-type-headline1` of
extraction strategy 2. -/
def isHeadlineSpan : HNode → Bool
  | .elem tag attrs _ => tag == "span" && hasClass attrs "sds-comps-text-type-headline1"
  | .text _ => false

mutual
/-- `soup.select` with a node predicate: all matching nodes in document
(preorder) order. -/
def selectNodes (p : HNode → Bool) : HNode → List HNode
  | .text s => if p (.text s) then [.text s] else []
  | .elem t a cs =>
    (if p (.elem t a cs) then [HNode.elem t a cs] else []) ++ selectNodesList p cs
def selectNodesList (p : HNode → Bool) : List HNode → List HNode
  | [] => []
  | n :: ns => selectNodes p n ++ selectNodesList p ns
end

/-- The record strategy 1 builds from one `a.news_tit` anchor:
`title = a_tag.get("title") or a_tag.get_text(strip=True)`,
`link = a_tag.get("href")`, appended only `if title and link`. -/
def recordOfNewsTit : HNode → List Record
  | .elem t attrs cs =>
    let title :=
      match getAttr attrs "title" with
      | some v => if v ≠ "" then v else getTextStrip (.elem t attrs cs)
      | none => getTextStrip (.elem t attrs cs)
    match getAttr attrs "href" with
    | some l => if title ≠ "" && l ≠ "" then [⟨title, l⟩] else []
    | none => []
  | .text _ => []

/-- Strategy 1 of `parse_search_results`: classic `a.news_tit` items. -/
def strat1 (doc : List HNode) : List Record :=
  ((selectNodesList isNewsTitAnchor doc).map recordOfNewsTit).flatten

/-- `span.find_parent("a")`: the attributes of the nearest anchor among the
ancestors (listed innermost first). -/
def findParentAnchor : List HNode → Option (List (String × String))
  | [] => none
  | .elem t attrs _ :: rest => if t == "a" then some attrs else findParentAnchor rest
  | .text _ :: rest => findParentAnchor rest

mutual
/-- Strategy 2 of `parse_search_results`, walking the tree with the
ancestor stack: for each headline span, look up the nearest enclosing
anchor; `title = span.get_text(strip=True)`, `link = a_tag.get("href")`,
appended only `if title and link`. -/
def strat2Node (anc : List HNode) : HNode → List Record
  | .text _ => []
  | .elem tag attrs cs =>
    let here :=
      if isHeadlineSpan (.elem tag attrs cs) then
        match findParentAnchor anc with
        | some aAttrs =>
          let title := getTextStrip (.elem tag attrs cs)
          match getAttr aAttrs "href" with
          | some l => if title ≠ "" && l ≠ "" then [⟨title, l⟩] else []
          | none => []
        | none => []
      else []
    here ++ strat2List (HNode.elem tag attrs cs :: anc) cs
def strat2List (anc : List HNode) : List HNode → List Record
  | [] => []
  | n :: ns => strat2Node anc n ++ strat2List anc ns
end

/-- The final pass of `parse_search_results` (`# 중복 제거 및 유효성 검사`):
keep a record when its link is truthy, starts with `http`, and was not
seen before; record kept links in `seen`. -/
def dedupPass : List Record → List String → List Record
  | [], _ => []
  | r :: rest, seen =>
    if (r.link ≠ "" && pyStartsWith r.link "http") && !seen.contains r.link then
      r :: dedupPass rest (r.link :: seen)
    else dedupPass rest seen

/-- `parse_search_results(html)` on the parsed document: strategy 1, then
strategy 2 (with an empty ancestor stack at the roots), then the
dedup-and-validity pass. -/
def parse_search_results (doc : List HNode) : List Record :=
  dedupPass (strat1 doc ++ strat2List [] doc) []

/-- Spec-side first-occurrence-wins deduplication by exact link (the 4.6
Deduplicator), used to characterize the final pass of the extractor. -/
def dedupeByLink : List Record → List String → List Record
  | [], _ => []
  | r :: rest, seen =>
    if seen.contains r.link then dedupeByLink rest seen
    else r :: dedupeByLink rest (r.link :: seen)

/-- Two classic `a.news_tit` anchors that share one link: the document on
which the no-deduplication claim fails. -/
def twoAnchorDoc : List HNode :=
  [HNode.elem "a" [("class", "news_tit"), ("title", "t1"), ("href", "http://x")] [],
   HNode.elem "a" [("class", "news_tit"), ("title", "t2"), ("href", "http://x")] []]

theorem validDate8_ne_empty {s : String} (h : validDate8 s = true) : s ≠ "" := by
  intro hs
  subst hs
  simp [validDate8, fullmatch8] at h

/-- Claim C4: for valid 8-digit calendar dates with `start <= end`
(lexicographically), `resolve_dates` returns the pair unchanged; with
`start > end` it fails with `InvalidDateRange`. -/
theorem resolve_dates_valid_pair (s e today : String)
    (hs : validDate8 s = true) (he : validDate8 e = true) :
    (pyStrLt e s = false → resolve_dates (some s) (some e) today = .ok (s, e)) ∧
    (pyStrLt e s = true →
      resolve_dates (some s) (some e) today = .error .invalidRange) := by
  have hs' : s ≠ "" := validDate8_ne_empty hs
  have he' : e ≠ "" := validDate8_ne_empty he
  constructor <;> intro h <;>
    simp [resolve_dates, pyTruthy, validate_yyyymmdd, hs, he, hs', he', h]

theorem resolve_dates_valid_pair_witness :
    resolve_dates (some "20240101") (some "20240102") "20250101"
      = .ok ("20240101", "20240102") ∧
    resolve_dates (some "20240103") (some "20240102") "20250101"
      = .error .invalidRange := by
  constructor
  · exact (resolve_dates_valid_pair "20240101" "20240102" "20250101"
      (by rfl) (by rfl)).1 (by rfl)
  · exact (resolve_dates_valid_pair "20240103" "20240102" "20250101"
      (by rfl) (by rfl)).2 (by rfl)

/-- Claim C9: calling `resolve_dates` with `end` given (truthy) but `start`
absent falls into the both-given branch, which validates the absent
`start` and hence fails with `InvalidDateFormat`, regardless of whether
`end` is a valid date. -/
theorem resolve_dates_end_only (e today : String) (he : e ≠ "") :
    resolve_dates none (some e) today = .error .invalidFormat := by
  simp [resolve_dates, pyTruthy, validate_yyyymmdd, validDate8, fullmatch8, he]

theorem resolve_dates_end_only_witness :
    resolve_dates none (some "20240102") "20250101" = .error .invalidFormat :=
  resolve_dates_end_only "20240102" "20250101" (by simp)

theorem naverCollect_no_reach (maxItems : Nat) (l : List Record) :
    ∀ acc : List Record, acc.length + l.length < maxItems →
      naverCollect maxItems acc l = (acc ++ l, false) := by
  induction l with
  | nil => intro acc _; simp [naverCollect]
  | cons it rest ih =>
    intro acc h
    rw [naverCollect]
    have hlen : ¬ maxItems ≤ (acc ++ [it]).length := by
      simp only [List.length_append, List.length_cons, List.length_nil]
      simp only [List.length_cons] at h
      omega
    rw [if_neg hlen, ih (acc ++ [it]) (by simp at h ⊢; omega)]
    simp

theorem naverCollect_reach (maxItems : Nat) (l : List Record) :
    ∀ acc : List Record, acc.length < maxItems →
      maxItems ≤ acc.length + l.length →
      naverCollect maxItems acc l = (acc ++ l.take (maxItems - acc.length), true) := by
  induction l with
  | nil => intro acc h1 h2; simp at h1 h2; omega
  | cons it rest ih =>
    intro acc h1 h2
    rw [naverCollect]
    by_cases hge : maxItems ≤ (acc ++ [it]).length
    · rw [if_pos hge]
      have : maxItems - acc.length = 1 := by
        simp only [List.length_append, List.length_cons, List.length_nil] at hge
        omega
      simp [this]
    · rw [if_neg hge]
      rw [ih (acc ++ [it]) (by simp at hge ⊢; omega)
        (by simp only [List.length_append, List.length_cons, List.length_nil] at h2 ⊢; omega)]
      have hk : maxItems - acc.length = (maxItems - (acc ++ [it]).length) + 1 := by
        simp only [List.length_append, List.length_cons, List.length_nil] at hge ⊢
        omega
      simp [hk, List.take_succ_cons]

theorem naverCollect_len_bound (maxItems : Nat) (l : List Record) :
    ∀ acc : List Record, acc.length < maxItems →
      (naverCollect maxItems acc l).1.length ≤ maxItems ∧
      ((naverCollect maxItems acc l).2 = false →
        (naverCollect maxItems acc l).1.length < maxItems) := by
  induction l with
  | nil => intro acc h; simp [naverCollect]; omega
  | cons it rest ih =>
    intro acc h
    rw [naverCollect]
    by_cases hge : maxItems ≤ (acc ++ [it]).length
    · rw [if_pos hge]
      simp only [List.length_append, List.length_cons, List.length_nil] at hge ⊢
      constructor
      · omega
      · intro hf; exact absurd hf (by simp)
    · rw [if_neg hge]
      exact ih (acc ++ [it]) (by simp at hge ⊢; omega)

theorem naverLoop_len_bound (fetch : Nat → PageResult) (maxItems : Nat) :
    ∀ (n page : Nat) (acc : List Record), acc.length < maxItems →
      (naverLoop fetch maxItems page n acc).length ≤ maxItems := by
  intro n
  induction n with
  | zero => intro page acc h; rw [naverLoop]; omega
  | succ n ih =>
    intro page acc h
    rcases hf : fetch page with _ | l
    · simp only [naverLoop, hf]
      omega
    · rcases l with _ | ⟨it, rest⟩
      · simp only [naverLoop, hf]
        omega
      · simp only [naverLoop, hf]
        have hb := naverCollect_len_bound maxItems (it :: rest) acc h
        rcases hc : naverCollect maxItems acc (it :: rest) with ⟨acc', b⟩
        rw [hc] at hb
        rcases b with _ | _
        · simp only []
          exact ih (page + 1) acc' (hb.2 rfl)
        · simp only []
          exact hb.1

/-- Claim C7: with `maxItems = 15` and 10-record pages, when page 0 yields 10
records and page 1 at least 5, `search_naver_news` returns exactly the 10
page-0 records followed by the first 5 page-1 records (15 in total),
truncating mid-page; and for every fetch oracle and cap, the result never
exceeds `maxItems` records. -/
theorem search_naver_truncates (fetch : Nat → PageResult) (l0 l1 : List Record)
    (h0 : fetch 0 = .items l0) (h1 : fetch 1 = .items l1)
    (hl0 : l0.length = 10) (hl1 : 5 ≤ l1.length) :
    (search_naver_news fetch 15 = l0 ++ l1.take 5 ∧
      (search_naver_news fetch 15).length = 15) ∧
    ∀ (f : Nat → PageResult) (m : Nat), (search_naver_news f m).length ≤ m := by
  constructor
  · have hmain : search_naver_news fetch 15 = l0 ++ l1.take 5 := by
      obtain ⟨a0, t0, rfl⟩ : ∃ a t, l0 = a :: t := by
        cases l0 with
        | nil => simp at hl0
        | cons a t => exact ⟨a, t, rfl⟩
      obtain ⟨a1, t1, rfl⟩ : ∃ a t, l1 = a :: t := by
        cases l1 with
        | nil => simp at hl1
        | cons a t => exact ⟨a, t, rfl⟩
      show naverLoop fetch 15 0 2 [] = _
      simp only [naverLoop, h0]
      rw [naverCollect_no_reach 15 (a0 :: t0) []
        (by simp only [List.length_nil, Nat.zero_add, hl0]; omega)]
      simp only [List.nil_append]
      simp only [naverLoop, h1]
      rw [naverCollect_reach 15 (a1 :: t1) (a0 :: t0) (by omega) (by omega)]
      rw [hl0]
    refine ⟨hmain, ?_⟩
    rw [hmain]
    simp only [List.length_append, List.length_take]
    omega
  · intro f m
    show (naverLoop f m 0 ((m + 9) / 10) []).length ≤ m
    rcases Nat.eq_zero_or_pos m with hm | hm
    · subst hm
      rw [show (0 + 9) / 10 = 0 from rfl, naverLoop]
      simp
    · exact naverLoop_len_bound f m ((m + 9) / 10) 0 [] (by simpa using hm)

theorem search_naver_truncates_witness :
    let r : Record := ⟨"t", "http://x"⟩
    let fetch : Nat → PageResult := fun p =>
      if p = 0 then .items (List.replicate 10 r)
      else .items (List.replicate 10 r)
    search_naver_news fetch 15
      = List.replicate 10 r ++ (List.replicate 10 r).take 5 := by
  intro r fetch
  exact ((search_naver_truncates fetch (List.replicate 10 r) (List.replicate 10 r)
    rfl rfl (by simp) (by simp)).1).1

/-- Claim C8: a network failure on any page fetch is a soft stop — the page loop
of `search_naver_news` terminates and returns exactly the records already
collected on earlier pages, as a normal (possibly empty) result rather
than an error; in particular a failure on the very first page yields the
empty list. -/
theorem naver_net_err_soft_stop (fetch : Nat → PageResult)
    (maxItems page n : Nat) (acc : List Record)
    (h : fetch page = .netErr) :
    naverLoop fetch maxItems page (n + 1) acc = acc ∧
    (fetch 0 = .netErr → search_naver_news fetch maxItems = []) := by
  constructor
  · rw [naverLoop, h]
  · intro h0
    show naverLoop fetch maxItems 0 ((maxItems + 9) / 10) [] = []
    rcases n' : (maxItems + 9) / 10 with _ | k
    · rw [naverLoop]
    · rw [naverLoop, h0]

theorem naver_net_err_soft_stop_witness :
    naverLoop (fun _ => PageResult.netErr) 10 0 1 [⟨"t", "http://x"⟩]
      = [⟨"t", "http://x"⟩] :=
  (naver_net_err_soft_stop (fun _ => PageResult.netErr) 10 0 0
    [⟨"t", "http://x"⟩] rfl).1

/-- Claim C5: when the feed fetch raises a network error, `search_google_news`
does not propagate an error — it returns exactly what the HTML fallback
path `_search_google_news_html` produces for the same arguments. -/
theorem search_google_net_err_falls_back (parse : String → Option Nat)
    (htmlFallback : List Record) (startD endD maxItems : Nat) :
    search_google_news parse .netErr htmlFallback startD endD maxItems
      = htmlFallback := rfl

theorem feedLoop_skips_date_filtered (parse : String → Option Nat)
    (startD endD maxItems : Nat) (entry : FeedEntry)
    (hk : entryKeptByDate parse entry.pubDate startD endD = false)
    (rest : List FeedEntry) (seen : List String) (results : List Record) :
    feedLoop parse startD endD maxItems (entry :: rest) seen results
      = feedLoop parse startD endD maxItems rest seen results := by
  simp only [feedLoop, hk, Bool.not_false, if_true, ite_self]

/-- Claim C6: a parsed feed entry whose publication date lies strictly before
`startD` or strictly after `endD` is excluded: processing the entry list
with it is the same as processing without it, in any loop state, and the
whole `search_google_news` result is unchanged by dropping it. -/
theorem feed_date_filter_excludes (parse : String → Option Nat)
    (startD endD maxItems : Nat) (entry : FeedEntry) (d : Nat)
    (hp : parsePubOpt parse entry.pubDate = some d)
    (hout : d < startD ∨ endD < d) :
    (∀ (rest : List FeedEntry) (seen : List String) (results : List Record),
      feedLoop parse startD endD maxItems (entry :: rest) seen results
        = feedLoop parse startD endD maxItems rest seen results) ∧
    (∀ (rest : List FeedEntry) (html : List Record),
      search_google_news parse (.parsed (entry :: rest)) html startD endD maxItems
        = search_google_news parse (.parsed rest) html startD endD maxItems) := by
  have hk : entryKeptByDate parse entry.pubDate startD endD = false := by
    unfold entryKeptByDate
    rw [hp]
    rcases hout with h | h <;> simp [h]
  constructor
  · intro rest seen results
    exact feedLoop_skips_date_filtered parse startD endD maxItems entry hk rest seen results
  · intro rest html
    simp only [search_google_news,
      feedLoop_skips_date_filtered parse startD endD maxItems entry hk rest [] []]

theorem feed_date_filter_excludes_witness :
    feedLoop (fun _ => some 50) 10 20 100
        [⟨some "T", some "http://a", some "D"⟩] [] []
      = feedLoop (fun _ => some 50) 10 20 100 [] [] [] :=
  (feed_date_filter_excludes (fun _ => some 50) 10 20 100
    ⟨some "T", some "http://a", some "D"⟩ 50 rfl (Or.inr (by omega))).1 [] [] []

theorem feedLoop_mem_mono (parse : String → Option Nat)
    (startD endD maxItems : Nat) :
    ∀ (items : List FeedEntry) (seen : List String) (results : List Record)
      (r : Record), r ∈ results →
      r ∈ feedLoop parse startD endD maxItems items seen results := by
  intro items
  induction items with
  | nil =>
    intro seen results r h
    rw [feedLoop]
    exact h
  | cons entry rest ih =>
    intro seen results r h
    simp only [feedLoop]
    split
    · exact ih _ _ r h
    · split
      · exact ih _ _ r h
      · split
        · exact ih _ _ r h
        · split
          · exact List.mem_append.mpr (Or.inl h)
          · exact ih _ _ r (List.mem_append.mpr (Or.inl h))

/-- Claim C10: a feed entry whose `pubDate` is missing or fails to parse is never
discarded by the date filter — the filter keeps it for every requested
date range, and (when its title/link are non-blank and its cleaned link is
fresh) its record appears in the loop output whatever `startD` and
`endD` are. -/
theorem feed_unparsed_pubdate_kept (parse : String → Option Nat)
    (startD endD maxItems : Nat) (entry : FeedEntry)
    (rest : List FeedEntry) (seen : List String) (results : List Record)
    (hp : parsePubOpt parse entry.pubDate = none)
    (ht : pyStrip (entry.title.getD "") ≠ "")
    (hl : pyStrip (entry.link.getD "") ≠ "")
    (hf : seen.contains (cleanedLinkOf entry) = false) :
    entryKeptByDate parse entry.pubDate startD endD = true ∧
    Record.mk (pyStrip (entry.title.getD "")) (cleanedLinkOf entry)
      ∈ feedLoop parse startD endD maxItems (entry :: rest) seen results := by
  have hk : entryKeptByDate parse entry.pubDate startD endD = true := by
    unfold entryKeptByDate
    rw [hp]
  refine ⟨hk, ?_⟩
  simp only [feedLoop, hk, Bool.not_true]
  rw [if_neg (by simp [ht, hl]), if_neg (by simp), if_neg (by simpa using hf)]
  split
  · exact List.mem_append.mpr (Or.inr (by simp))
  · exact feedLoop_mem_mono parse startD endD maxItems rest _ _ _
      (List.mem_append.mpr (Or.inr (by simp)))

theorem feed_unparsed_pubdate_kept_witness :
    entryKeptByDate (fun _ => none) (FeedEntry.mk (some "T") (some "http://a") none).pubDate 10 20 = true ∧
    Record.mk "T" "http://a"
      ∈ feedLoop (fun _ => none) 10 20 100
          [⟨some "T", some "http://a", none⟩] [] [] := by
  have h := feed_unparsed_pubdate_kept (fun _ => none) 10 20 100
    ⟨some "T", some "http://a", none⟩ [] [] []
    rfl (by decide) (by decide) (by decide)
  have e1 : pyStrip ((FeedEntry.mk (some "T") (some "http://a") none).title.getD "") = "T" := by decide
  have e2 : cleanedLinkOf ⟨some "T", some "http://a", none⟩ = "http://a" := by decide
  rw [e1, e2] at h
  exact h

/-- Claim C2 counterexample: a successfully fetched and parsed feed with one
entry whose publication date (day 50) lies outside the requested range
[10, 20]; the feed-path result is empty, yet `search_google_news` returns
the (non-empty) result of the HTML fallback instead of the empty sequence —
the HTML fallback IS invoked in this branch. -/
theorem search_google_all_filtered_cex :
    feedLoop (fun _ => some 50) 10 20 100
        [⟨some "T", some "http://a", some "D"⟩] [] [] = [] ∧
    search_google_news (fun _ => some 50)
        (.parsed [⟨some "T", some "http://a", some "D"⟩])
        [⟨"H", "http://h"⟩] 10 20 100
      = [⟨"H", "http://h"⟩] ∧
    ([⟨"H", "http://h"⟩] : List Record) ≠ [] := by
  refine ⟨by decide, by decide, by decide⟩

/-- Claim C2 amended: when the feed fetch and parse succeed, the unfiltered feed
is non-empty, and every entry is discarded by the date-range filter,
`search_google_news` invokes the HTML fallback and returns its result
(it falls back whenever the feed-path result is empty). -/
theorem search_google_all_filtered_falls_back (parse : String → Option Nat)
    (items : List FeedEntry) (html : List Record) (startD endD maxItems : Nat)
    (hne : items ≠ [])
    (hall : ∀ entry ∈ items,
      entryKeptByDate parse entry.pubDate startD endD = false) :
    search_google_news parse (.parsed items) html startD endD maxItems = html := by
  have hloop : ∀ (l : List FeedEntry), (∀ entry ∈ l,
      entryKeptByDate parse entry.pubDate startD endD = false) →
      ∀ seen results, feedLoop parse startD endD maxItems l seen results = results := by
    intro l
    induction l with
    | nil => intro _ seen results; rw [feedLoop]
    | cons entry rest ih =>
      intro h seen results
      rw [feedLoop_skips_date_filtered parse startD endD maxItems entry
        (h entry (List.mem_cons_self entry rest)) rest seen results]
      exact ih (fun x hx => h x (List.mem_cons_of_mem entry hx)) seen results
  simp only [search_google_news, hloop items hall [] []]
  rfl

theorem pyStartsWith_append_left (a b pre : String)
    (h : pyStartsWith a pre = true) : pyStartsWith (a ++ b) pre = true := by
  simp only [pyStartsWith, List.isPrefixOf_iff_prefix, String.toList] at h ⊢
  rw [String.data_append]
  exact h.trans (List.prefix_append a.data b.data)

/-- Claim C3 counterexample: the relative link `articles/abc` has no scheme at
all (in particular no HTTP(S) scheme), yet `_clean_google_link` does not
filter it out: it resolves it against `https://news.google.com` and
returns a non-null absolute URL. -/
theorem clean_relative_link_cex :
    hasScheme "articles/abc" = false ∧
    pyStartsWith "articles/abc" "http" = false ∧
    clean_google_link "articles/abc" = "https://news.google.com/articles/abc" ∧
    clean_google_link "articles/abc" ≠ "" := by
  refine ⟨by decide, by decide, by decide, by decide⟩

theorem append_ne_empty_left (a b : String) (h : a ≠ "") : a ++ b ≠ "" := by
  intro hab
  apply h
  have hd := congrArg String.data hab
  rw [String.data_append] at hd
  have h0 : ("" : String).data = [] := rfl
  rw [h0] at hd
  exact String.ext ((List.append_eq_nil.mp hd).1.trans h0.symm)

theorem urljoinOrigin_ne_empty (base ref : String) (hb : base ≠ "")
    (hr : ref ≠ "") : urljoinOrigin base ref ≠ "" := by
  unfold urljoinOrigin
  split
  · exact hr
  · split
    · exact append_ne_empty_left "https:" ref (by decide)
    · split
      · exact append_ne_empty_left base ref hb
      · exact append_ne_empty_left (base ++ "/") ref
          (append_ne_empty_left base "/" hb)

theorem parseQsGet_ne_empty {q : List Char} {key v : String}
    (h : parseQsGet q key = some v) : v ≠ "" := by
  have hmem : v ∈ (splitChar '&' q).filterMap (fun kv =>
      match splitChar '=' kv with
      | k :: w :: rest =>
        let value := joinChar '=' (w :: rest)
        if k = key.toList ∧ value ≠ [] then some (String.mk value) else none
      | _ => none) := by
    apply List.mem_of_mem_head?
    rw [parseQsGet] at h
    exact h
  obtain ⟨kv, _, hf⟩ := List.mem_filterMap.mp hmem
  rcases hsp : splitChar '=' kv with _ | ⟨k, rest⟩
  · rw [hsp] at hf
    simp at hf
  · rcases rest with _ | ⟨w, rest'⟩
    · rw [hsp] at hf
      simp at hf
    · rw [hsp] at hf
      have hf' : (if k = key.toList ∧ joinChar '=' (w :: rest') ≠ [] then
          some (String.mk (joinChar '=' (w :: rest'))) else none) = some v := hf
      by_cases hcond : (k = key.toList ∧ joinChar '=' (w :: rest') ≠ [])
      · rw [if_pos hcond] at hf'
        have hv : v = String.mk (joinChar '=' (w :: rest')) := (Option.some.inj hf').symm
        intro hve
        apply hcond.2
        exact congrArg String.data (hv ▸ hve)
      · rw [if_neg hcond] at hf'
        simp at hf'

/-- Claim C3 amended: `_clean_google_link` returns null only for a
null/empty input link — for every non-empty link, in particular every
link lacking an HTTP(S) scheme, it returns a non-empty string rather than
filtering the link out; and every non-empty link that is not a Google
redirect-wrapper path, does not start with `http`, and has no scheme of
any kind is resolved against the `https://news.google.com` base into an
absolute `https://…` URL. -/
theorem clean_no_scheme_resolves (link : String) (h1 : link ≠ "") :
    clean_google_link link ≠ "" ∧
    (pyStartsWith link "/url?" = false →
     pyStartsWith link "https://www.google.com/url?" = false →
     pyStartsWith link "http" = false →
     hasScheme link = false →
     clean_google_link link = urljoinOrigin "https://news.google.com" link ∧
     pyStartsWith (clean_google_link link) "https://" = true) := by
  constructor
  · unfold clean_google_link
    rw [if_neg h1]
    split
    · rcases hq : parseQsGet (urlQueryChars link) "q" with _ | v
      · rcases hu : parseQsGet (urlQueryChars link) "url" with _ | v
        · exact urljoinOrigin_ne_empty "https://www.google.com" link (by decide) h1
        · exact parseQsGet_ne_empty hu
      · exact parseQsGet_ne_empty hq
    · split
      · exact h1
      · exact urljoinOrigin_ne_empty "https://news.google.com" link (by decide) h1
  · intro h2 h3 h4 h5
    have heq : clean_google_link link = urljoinOrigin "https://news.google.com" link := by
      unfold clean_google_link
      rw [if_neg h1, if_neg (by simp [h2, h3]), if_neg (by simp [h4])]
    have hstart : pyStartsWith (urljoinOrigin "https://news.google.com" link) "https://" = true := by
      unfold urljoinOrigin
      rw [if_neg (by simp [h5])]
      by_cases hss : pyStartsWith link "//" = true
      · rw [if_pos hss]
        simp only [pyStartsWith, List.isPrefixOf_iff_prefix, String.toList] at hss ⊢
        rw [String.data_append]
        obtain ⟨t, ht⟩ := hss
        rw [← ht]
        exact ⟨t, by simp⟩
      · rw [if_neg hss]
        by_cases hsl : pyStartsWith link "/" = true
        · rw [if_pos hsl]
          exact pyStartsWith_append_left "https://news.google.com" link "https://" (by decide)
        · rw [if_neg hsl]
          exact pyStartsWith_append_left ("https://news.google.com" ++ "/") link "https://" (by decide)
    exact ⟨heq, by rw [heq]; exact hstart⟩

theorem clean_no_scheme_resolves_witness :
    clean_google_link "read/xyz" ≠ "" ∧
    clean_google_link "read/xyz" = urljoinOrigin "https://news.google.com" "read/xyz" ∧
    pyStartsWith (clean_google_link "read/xyz") "https://" = true := by
  have h := clean_no_scheme_resolves "read/xyz" (by decide)
  exact ⟨h.1, h.2 (by decide) (by decide) (by decide) (by decide)⟩

theorem search_google_all_filtered_falls_back_witness :
    search_google_news (fun _ => some 50)
        (.parsed [⟨some "T", some "http://a", some "D"⟩])
        [⟨"H", "http://h"⟩] 10 20 100
      = [⟨"H", "http://h"⟩] :=
  search_google_all_filtered_falls_back (fun _ => some 50)
    [⟨some "T", some "http://a", some "D"⟩] [⟨"H", "http://h"⟩] 10 20 100
    (by decide) (by decide)

/-- Claim C1 counterexample: a document with two `a.news_tit` anchors sharing the
link `http://x`. The strategy-1/strategy-2 concatenation contains both
candidate records, but `parse_search_results` returns only the first one —
the extractor DOES deduplicate by link inside the call, so two candidates
sharing a link do not both appear in its output. -/
theorem parse_search_results_no_dedup_cex :
    strat1 twoAnchorDoc ++ strat2List [] twoAnchorDoc
      = [⟨"t1", "http://x"⟩, ⟨"t2", "http://x"⟩] ∧
    parse_search_results twoAnchorDoc = [⟨"t1", "http://x"⟩] ∧
    parse_search_results twoAnchorDoc
      ≠ [⟨"t1", "http://x"⟩, ⟨"t2", "http://x"⟩] := by
  refine ⟨by decide, by decide, by decide⟩

theorem dedupPass_eq_dedupeByLink (l : List Record) :
    ∀ seen : List String,
      dedupPass l seen =
        dedupeByLink (l.filter (fun r => r.link ≠ "" && pyStartsWith r.link "http")) seen := by
  induction l with
  | nil => intro seen; rfl
  | cons r rest ih =>
    intro seen
    rw [dedupPass]
    simp only [List.filter_cons]
    by_cases h1 : (r.link ≠ "" && pyStartsWith r.link "http") = true
    · by_cases hc : seen.contains r.link = true
      · rw [if_neg (by rw [h1, hc]; decide)]
        rw [if_pos h1]
        rw [dedupeByLink, if_pos hc, ih seen]
      · have hc' : seen.contains r.link = false := by simpa using hc
        rw [if_pos (by rw [h1, hc']; decide)]
        rw [if_pos h1]
        rw [dedupeByLink, if_neg (by rw [hc']; decide), ih (r.link :: seen)]
    · have h1' : (r.link ≠ "" && pyStartsWith r.link "http") = false := by
        simpa using h1
      rw [if_neg (by rw [h1']; simp)]
      rw [if_neg (by rw [h1']; simp)]
      rw [ih seen]

/-- Claim C1 amended: for every HTML document, `parse_search_results` returns
the concatenation of the strategy-1 and strategy-2 records with (a)
records whose link fails the starts-with-`http` check dropped and (b)
records deduplicated by exact link, first occurrence wins — deduplication
DOES happen inside this call. -/
theorem parse_search_results_dedups (doc : List HNode) :
    parse_search_results doc =
      dedupeByLink ((strat1 doc ++ strat2List [] doc).filter
        (fun r => r.link ≠ "" && pyStartsWith r.link "http")) [] := by
  unfold parse_search_results
  exact dedupPass_eq_dedupeByLink (strat1 doc ++ strat2List [] doc) []

end NewsSearch
